import Mathlib

/-!
Verification development for the mailbox session manager
(`src/stores/mail.ts` of easy10minMail): a shallow embedding of the
Pinia store's state and actions, with network responses supplied as
explicit oracles, and theorems about the store's observable behaviour.

Modelling conventions:
* `MailState` mirrors the store's `MailState` plus one extra field
  `storage` standing for the browser `localStorage` entry `mailAccount`
  (so that snapshot removal is observable in the model).
* A network call's outcome is a `FetchResult α := Option (HttpResp α)`:
  `none` models a transport-level rejection of `fetch` (the promise
  rejects), `some r` models a completed HTTP response with status
  `r.status` and parsed JSON body `r.body`.  `HttpResp.ok` mirrors
  `Response.ok` (status in 200..299).
* Each action returns an `OpResult α`: the returned value or thrown
  error (`Except MailError α`), the post-state, and a log of the
  requests it issued.  Every log entry records the `loading` and
  `refreshing` flags at the moment the request was issued, which makes
  "busy flag held during the call" statements expressible.
* JavaScript truthiness matters in guards (`!this.token`,
  `if (data.token)`): an absent value and the empty string are both
  falsy, captured by `strFalsy`.
* The `Map` `messageContents` is modelled as an association list with
  `Map.set` semantics (`cacheSet`).
-/

namespace Mail

/-- Sender or recipient entry of a message: `{ name, address }`. -/
structure Contact where
  name : String
  address : String
  deriving Repr, DecidableEq

/-- Message summary as held in `messages` (`interface Message`). -/
structure Message where
  id : String
  fromField : Contact
  toField : List Contact
  subject : String
  seen : Bool
  createdAt : String
  html : Option (List String)
  text : Option String
  deriving Repr, DecidableEq

/-- Account record `{ address, id }`. -/
structure Account where
  address : String
  id : String
  deriving Repr, DecidableEq

/-- Domain record `{ domain, id }`. -/
structure Domain where
  domain : String
  id : String
  deriving Repr, DecidableEq

/-- Message detail payload (`data` of `fetchMessageDetail`); the store
never inspects its JSON structure, so it is modelled as a plain string. -/
abbrev MsgDetail := String

/-- Pagination cursor `{ page, pageSize, total }`. -/
structure Pagination where
  page : Nat
  pageSize : Nat
  total : Nat
  deriving Repr, DecidableEq

/-- The persisted snapshot (`interface StoredData`). -/
structure StoredData where
  account : Option Account
  token : Option String
  username : String
  password : String
  deriving Repr, DecidableEq

/-- The store's state (`interface MailState`), plus `storage` for the
`localStorage` entry `mailAccount` (`none` = no entry). -/
structure MailState where
  messages : List Message
  loading : Bool
  refreshing : Bool
  account : Option Account
  domains : List Domain
  token : Option String
  selectedMessage : Option Message
  isTokenValid : Bool
  password : String
  messageContents : List (String × MsgDetail)
  pagination : Pagination
  storage : Option StoredData
  deriving Repr, DecidableEq

/-- The store's initial state (the `state: ()` initializer), with an
empty `localStorage`. -/
def initialState : MailState where
  messages := []
  loading := false
  refreshing := false
  account := none
  domains := []
  token := none
  selectedMessage := none
  isTokenValid := false
  password := ""
  messageContents := []
  pagination := { page := 1, pageSize := 10, total := 0 }
  storage := none

/-- A completed HTTP response: status code and parsed JSON body. -/
structure HttpResp (α : Type) where
  status : Nat
  body : α
  deriving Repr, DecidableEq

/-- Mirror of `Response.ok`: status in the range 200..299. -/
def HttpResp.ok {α : Type} (r : HttpResp α) : Bool :=
  decide (200 ≤ r.status ∧ r.status ≤ 299)

/-- Outcome of one `fetch`: `none` = transport failure (promise
rejects), `some r` = completed response. -/
abbrev FetchResult (α : Type) := Option (HttpResp α)

/-- Holds (`true`) when the completed-response oracle exists and is `ok`. -/
def outcomeOk {α : Type} (o : FetchResult α) : Bool :=
  match o with
  | none => false
  | some r => r.ok

/-- JavaScript falsiness of an optional string: `null`/absent and `""`
are falsy. -/
def strFalsy (t : Option String) : Bool :=
  match t with
  | none => true
  | some s => s = ""

/-- Body of the `POST /accounts` response (fields the store reads). -/
structure AccountBody where
  address : String
  id : String
  deriving Repr, DecidableEq

/-- Body of the `POST /token` response; `token = none` models an absent
token field. -/
structure TokenBody where
  token : Option String
  deriving Repr, DecidableEq

/-- Body of the `GET /messages` response: the `hydra:member` list and
the optional `hydra:totalItems` count. -/
structure MessagesBody where
  member : List Message
  totalItems : Option Nat
  deriving Repr, DecidableEq

/-- The requests the store can issue against the remote API. -/
inductive Request where
  | domainsReq : Request
  | accountsReq (address password : String) : Request
  | tokenReq (address password : String) : Request
  | messagesReq (page pageSize : Nat) : Request
  | messageDetailReq (id : String) : Request
  | meReq : Request
  | deleteReq (id : String) : Request
  deriving Repr, DecidableEq

/-- A log entry: the request issued, together with the busy flags at
the moment of issuance. -/
structure ReqEntry where
  req : Request
  loading : Bool
  refreshing : Bool
  deriving Repr, DecidableEq

/-- Record a request issued from state `s`. -/
def logReq (s : MailState) (r : Request) : ReqEntry :=
  { req := r, loading := s.loading, refreshing := s.refreshing }

/-- The errors the store's actions can throw. -/
inductive MailError where
  | transport : MailError
  | domainsFetchFailed : MailError
  | accountCreateFailed : MailError
  | tokenFetchFailed : MailError
  | tokenMissing : MailError
  | messagesFetchFailed : MailError
  | messageDetailFetchFailed : MailError
  deriving Repr, DecidableEq

/-- Result of running one action: returned value or thrown error, the
post-state, and the request log. -/
structure OpResult (α : Type) where
  res : Except MailError α
  state : MailState
  log : List ReqEntry
  deriving Repr

/-- Association-list membership test (`Map.has`). -/
def cacheHas (c : List (String × MsgDetail)) (id : String) : Bool :=
  match c with
  | [] => false
  | p :: rest => p.1 = id || cacheHas rest id

/-- Association-list insertion with `Map.set` semantics: replace the
binding if the key is present, else append. -/
def cacheSet (c : List (String × MsgDetail)) (id : String) (v : MsgDetail) :
    List (String × MsgDetail) :=
  match c with
  | [] => [(id, v)]
  | p :: rest => if p.1 = id then (id, v) :: rest else p :: cacheSet rest id v

/-- Action `fetchDomains`: unauthenticated `GET /domains`; on success replaces
`domains` wholesale with the mapped member list and returns it; on a
non-ok response throws; on transport failure the catch rethrows. -/
def fetchDomains (s : MailState) (o : FetchResult (List Domain)) :
    OpResult (List Domain) :=
  let e := logReq s .domainsReq
  match o with
  | none => { res := .error .transport, state := s, log := [e] }
  | some r =>
    if r.ok then
      let ds := r.body.map (fun d => { domain := d.domain, id := d.id : Domain })
      { res := .ok ds, state := { s with domains := ds }, log := [e] }
    else
      { res := .error .domainsFetchFailed, state := s, log := [e] }

/-- Action `clearAccountData`: nulls `account` and `token`, empties `messages`,
and removes the `mailAccount` entry from local storage.  (It does not
touch `messageContents`.) -/
def clearAccountData (s : MailState) : MailState :=
  { s with account := none, token := none, messages := [], storage := none }

/-- Action `getToken(address, password)`: `POST /token`; on an ok response with
a truthy `token` field, stores and returns the token; throws if the
response is not ok, lacks a truthy token, or the transport fails. -/
def getToken (s : MailState) (address password : String)
    (o : FetchResult TokenBody) : OpResult String :=
  let e := logReq s (.tokenReq address password)
  match o with
  | none => { res := .error .transport, state := s, log := [e] }
  | some r =>
    if r.ok then
      match r.body.token with
      | some tk =>
        if tk = "" then
          { res := .error .tokenMissing, state := s, log := [e] }
        else
          { res := .ok tk, state := { s with token := some tk }, log := [e] }
      | none => { res := .error .tokenMissing, state := s, log := [e] }
    else
      { res := .error .tokenFetchFailed, state := s, log := [e] }

/-- The `try`-block body of `createAccount`, entered with `loading`
already set; the `finally` clearing of `loading` is applied on every
branch.  `lpre` is the log of the optional domain prefetch. -/
def createAccountBody (s : MailState) (username password selectedDomain : String)
    (oAccount : FetchResult AccountBody) (oToken : FetchResult TokenBody)
    (lpre : List ReqEntry) : OpResult AccountBody :=
  let s2 := { s with loading := true }
  let address := username ++ "@" ++ selectedDomain
  let e := logReq s2 (.accountsReq address password)
  match oAccount with
  | none =>
    { res := .error .transport, state := { s2 with loading := false },
      log := lpre ++ [e] }
  | some r =>
    if r.ok then
      let gt := getToken s2 address password oToken
      match gt.res with
      | .error err =>
        { res := .error err, state := { gt.state with loading := false },
          log := lpre ++ [e] ++ gt.log }
      | .ok _ =>
        { res := .ok r.body,
          state := { gt.state with
            account := some { address := r.body.address, id := r.body.id },
            loading := false },
          log := lpre ++ [e] ++ gt.log }
    else
      { res := .error .accountCreateFailed, state := { s2 with loading := false },
        log := lpre ++ [e] }

/-- Action `createAccount(username, password, selectedDomain)`: prefetches the
domain list when none is cached, then sets `loading`, issues
`POST /accounts`, on success obtains a token via `getToken`, and only
after that commits the returned account; `loading` is cleared by the
`finally` on every path out of the `try`. -/
def createAccount (s : MailState) (username password selectedDomain : String)
    (oDomains : FetchResult (List Domain)) (oAccount : FetchResult AccountBody)
    (oToken : FetchResult TokenBody) : OpResult AccountBody :=
  if s.domains.isEmpty then
    let fd := fetchDomains s oDomains
    match fd.res with
    | .error err => { res := .error err, state := fd.state, log := fd.log }
    | .ok _ =>
      createAccountBody fd.state username password selectedDomain oAccount oToken fd.log
  else
    createAccountBody s username password selectedDomain oAccount oToken []

/-- Action `fetchMessageDetail(id)`: authenticated request for one message;
returns the body on success, throws on a non-ok response or transport
failure; does not touch the cache. -/
def fetchMessageDetail (s : MailState) (id : String) (o : FetchResult MsgDetail) :
    OpResult MsgDetail :=
  let e := logReq s (.messageDetailReq id)
  match o with
  | none => { res := .error .transport, state := s, log := [e] }
  | some r =>
    if r.ok then
      { res := .ok r.body, state := s, log := [e] }
    else
      { res := .error .messageDetailFetchFailed, state := s, log := [e] }

/-- The detail-enrichment loop of `fetchMessages`: for each listed
message whose id is not yet a key of `messageContents`, fetch its
detail and insert it; a failed detail fetch stops the loop and
propagates its error. -/
def enrich (s : MailState) (msgs : List Message)
    (oDetail : String → FetchResult MsgDetail) : OpResult Unit :=
  match msgs with
  | [] => { res := .ok (), state := s, log := [] }
  | m :: rest =>
    if cacheHas s.messageContents m.id then
      enrich s rest oDetail
    else
      match fetchMessageDetail s m.id (oDetail m.id) with
      | { res := .error err, state := s', log := l } =>
        { res := .error err, state := s', log := l }
      | { res := .ok content, state := s', log := l } =>
        let s2 := { s' with messageContents := cacheSet s'.messageContents m.id content }
        let rec' := enrich s2 rest oDetail
        { res := rec'.res, state := rec'.state, log := l ++ rec'.log }

/-- Action `fetchMessages(page)`: sets `refreshing`, issues the authenticated
summary request; on success replaces `messages` wholesale, sets
`pagination.total` (with `|| 0` defaulting) and `pagination.page`, then
runs the enrichment loop; any thrown error is rethrown by the catch and
`refreshing` is cleared by the `finally` on every path. -/
def fetchMessages (s : MailState) (page : Nat)
    (oSummary : FetchResult MessagesBody)
    (oDetail : String → FetchResult MsgDetail) : OpResult Unit :=
  let s1 := { s with refreshing := true }
  let e := logReq s1 (.messagesReq page s1.pagination.pageSize)
  match oSummary with
  | none =>
    { res := .error .transport, state := { s1 with refreshing := false }, log := [e] }
  | some r =>
    if r.ok then
      let s2 := { s1 with
        messages := r.body.member,
        pagination := { s1.pagination with
          total := r.body.totalItems.getD 0, page := page } }
      let enr := enrich s2 r.body.member oDetail
      { res := enr.res, state := { enr.state with refreshing := false },
        log := e :: enr.log }
    else
      { res := .error .messagesFetchFailed, state := { s1 with refreshing := false },
        log := [e] }

/-- Action `checkToken()`: returns `false` immediately when the held token or
account is falsy; otherwise probes `GET /me`, records `response.ok`
into `isTokenValid` and returns it; a transport failure is caught,
setting `isTokenValid := false` and returning `false` — the action
never throws (its result type has no error component). -/
def checkToken (s : MailState) (o : FetchResult Unit) :
    Bool × MailState × List ReqEntry :=
  if strFalsy s.token ∨ s.account = none then
    (false, s, [])
  else
    let e := logReq s .meReq
    match o with
    | none => (false, { s with isTokenValid := false }, [e])
    | some r => (r.ok, { s with isTokenValid := r.ok }, [e])

/-- Action `deleteAccount()`: bare `return` (modelled as `.ok none`) when the
account or token is falsy; otherwise issues the authenticated
`DELETE /accounts/{id}`; on status 204 clears the account data and
returns `true`; on any other status returns `false`; a transport
failure is rethrown. -/
def deleteAccount (s : MailState) (o : FetchResult Unit) :
    OpResult (Option Bool) :=
  match s.account with
  | none => { res := .ok none, state := s, log := [] }
  | some acc =>
    if strFalsy s.token then
      { res := .ok none, state := s, log := [] }
    else
      let e := logReq s (.deleteReq acc.id)
      match o with
      | none => { res := .error .transport, state := s, log := [e] }
      | some r =>
        if r.status = 204 then
          { res := .ok (some true), state := clearAccountData s, log := [e] }
        else
          { res := .ok (some false), state := s, log := [e] }

/-- Whether the optional domain prefetch of `createAccount` succeeds:
either domains are already cached, or the fetch oracle is `ok`. -/
def prefetchOk (s : MailState) (o : FetchResult (List Domain)) : Bool :=
  !s.domains.isEmpty || outcomeOk o

/-- Whether a `POST /token` outcome yields a stored token: completed,
`ok`, and carrying a truthy `token` field. -/
def tokenOutcomeOk (o : FetchResult TokenBody) : Bool :=
  match o with
  | none => false
  | some r => r.ok && !(strFalsy r.body.token)

/-- Whether a log contains a `POST /token` request. -/
def tokenReqIssued (log : List ReqEntry) : Bool :=
  log.any (fun en =>
    match en.req with
    | .tokenReq _ _ => true
    | _ => false)

/-- Number of `GET /messages/{id}` requests for a given id in a log. -/
def countDetailReq (log : List ReqEntry) (id : String) : Nat :=
  match log with
  | [] => 0
  | en :: rest =>
    (if en.req = .messageDetailReq id then 1 else 0) + countDetailReq rest id

/-- Whether the enrichment loop, started on cache `c`, would fetch
every uncached listed detail successfully (the success condition of
`enrich`). -/
def enrichOk (c : List (String × MsgDetail)) (msgs : List Message)
    (od : String → FetchResult MsgDetail) : Bool :=
  match msgs with
  | [] => true
  | m :: rest =>
    if cacheHas c m.id then enrichOk c rest od
    else
      match od m.id with
      | none => false
      | some r => if r.ok then enrichOk (cacheSet c m.id r.body) rest od else false

/-- A sample message summary used in concrete runs. -/
def sampleMsg : Message where
  id := "m1"
  fromField := { name := "n", address := "x@y" }
  toField := []
  subject := "s"
  seen := false
  createdAt := "t"
  html := none
  text := none

lemma countDetailReq_append (l1 l2 : List ReqEntry) (id : String) :
    countDetailReq (l1 ++ l2) id = countDetailReq l1 id + countDetailReq l2 id := by
  induction l1 with
  | nil => simp [countDetailReq]
  | cons en rest ih => simp [countDetailReq, ih]; omega

lemma cacheHas_cacheSet (c : List (String × MsgDetail)) (k i : String) (v : MsgDetail) :
    cacheHas (cacheSet c k v) i = ((k = i : Bool) || cacheHas c i) := by
  induction c with
  | nil => simp [cacheSet, cacheHas]
  | cons p rest ih =>
    by_cases hp : p.1 = k
    · simp [cacheSet, hp, cacheHas, Bool.or_self_left]
    · simp [cacheSet, hp, cacheHas, ih, Bool.or_left_comm]

/-- The loop `enrich` changes only the `messageContents` field of the state. -/
lemma enrich_state_eq (s : MailState) (msgs : List Message)
    (od : String → FetchResult MsgDetail) :
    (enrich s msgs od).state =
      { s with messageContents := (enrich s msgs od).state.messageContents } := by
  induction msgs generalizing s with
  | nil => simp [enrich]
  | cons m rest ih =>
    by_cases hc : cacheHas s.messageContents m.id
    · simp only [enrich, hc, if_true]
      exact ih s
    · simp only [enrich, hc, if_false, Bool.false_eq_true]
      cases hod : od m.id with
      | none => simp [fetchMessageDetail]
      | some r =>
        by_cases hr : r.ok
        · simp only [fetchMessageDetail, hr, if_true]
          exact ih _
        · simp [fetchMessageDetail, hr]

/-- Cache membership is monotone along `enrich`. -/
lemma enrich_cache_mono (s : MailState) (msgs : List Message)
    (od : String → FetchResult MsgDetail) (id : String)
    (h : cacheHas s.messageContents id = true) :
    cacheHas (enrich s msgs od).state.messageContents id = true := by
  induction msgs generalizing s with
  | nil => simpa [enrich] using h
  | cons m rest ih =>
    by_cases hc : cacheHas s.messageContents m.id
    · simp only [enrich, hc, if_true]
      exact ih s h
    · simp only [enrich, hc, if_false, Bool.false_eq_true]
      cases hod : od m.id with
      | none => simpa [fetchMessageDetail] using h
      | some r =>
        by_cases hr : r.ok
        · simp only [fetchMessageDetail, hr, if_true]
          exact ih _ (by simp [cacheHas_cacheSet, h])
        · simpa [fetchMessageDetail, hr] using h

/-- A message id already cached is never fetched by `enrich`. -/
lemma enrich_cached_no_fetch (s : MailState) (msgs : List Message)
    (od : String → FetchResult MsgDetail) (id : String)
    (h : cacheHas s.messageContents id = true) :
    countDetailReq (enrich s msgs od).log id = 0 := by
  induction msgs generalizing s with
  | nil => simp [enrich, countDetailReq]
  | cons m rest ih =>
    by_cases hc : cacheHas s.messageContents m.id
    · simp only [enrich, hc, if_true]
      exact ih s h
    · have hmid : ¬m.id = id := by
        intro he
        rw [he] at hc
        exact hc h
      simp only [enrich, hc, if_false, Bool.false_eq_true]
      cases hod : od m.id with
      | none => simp [fetchMessageDetail, countDetailReq, logReq, hmid]
      | some r =>
        by_cases hr : r.ok
        · simp only [fetchMessageDetail, hr, if_true]
          simp only [countDetailReq_append]
          have h2 := ih { s with
            messageContents := cacheSet s.messageContents m.id r.body }
            (by simp [cacheHas_cacheSet, h])
          simp [countDetailReq, logReq, hmid, h2]
        · simp [fetchMessageDetail, hr, countDetailReq, logReq, hmid]

/-- One `enrich` run issues at most one detail fetch per message id. -/
lemma enrich_count_le_one (s : MailState) (msgs : List Message)
    (od : String → FetchResult MsgDetail) (id : String) :
    countDetailReq (enrich s msgs od).log id ≤ 1 := by
  induction msgs generalizing s with
  | nil => simp [enrich, countDetailReq]
  | cons m rest ih =>
    by_cases hc : cacheHas s.messageContents m.id
    · simp only [enrich, hc, if_true]
      exact ih s
    · simp only [enrich, hc, if_false, Bool.false_eq_true]
      cases hod : od m.id with
      | none =>
        simp only [fetchMessageDetail, countDetailReq, logReq]
        split <;> simp [countDetailReq]
      | some r =>
        by_cases hr : r.ok
        · simp only [fetchMessageDetail, hr, if_true, countDetailReq_append]
          by_cases hmid : m.id = id
          · subst hmid
            have h0 := enrich_cached_no_fetch
              { s with messageContents := cacheSet s.messageContents m.id r.body }
              rest od m.id (by simp [cacheHas_cacheSet])
            simp [countDetailReq, logReq, h0]
          · have h1 := ih { s with
              messageContents := cacheSet s.messageContents m.id r.body }
            simp [countDetailReq, logReq, hmid]
            omega
        · simp only [fetchMessageDetail, hr, if_false, Bool.false_eq_true,
            countDetailReq, logReq]
          split <;> simp [countDetailReq]

/-- If the detail oracle for `id` succeeds, an `enrich` run either never
fetches `id` or ends with `id` cached. -/
lemma enrich_fetch_or_cached (s : MailState) (msgs : List Message)
    (od : String → FetchResult MsgDetail) (id : String)
    (h : outcomeOk (od id) = true) :
    countDetailReq (enrich s msgs od).log id = 0 ∨
      cacheHas (enrich s msgs od).state.messageContents id = true := by
  induction msgs generalizing s with
  | nil => left; simp [enrich, countDetailReq]
  | cons m rest ih =>
    by_cases hc : cacheHas s.messageContents m.id
    · simp only [enrich, hc, if_true]
      exact ih s
    · simp only [enrich, hc, if_false, Bool.false_eq_true]
      cases hod : od m.id with
      | none =>
        have hmid : ¬m.id = id := by
          intro he
          rw [he] at hod
          rw [hod] at h
          simp [outcomeOk] at h
        left
        simp [fetchMessageDetail, countDetailReq, logReq, hmid]
      | some r =>
        by_cases hr : r.ok
        · simp only [fetchMessageDetail, hr, if_true, countDetailReq_append]
          by_cases hmid : m.id = id
          · right
            exact enrich_cache_mono _ rest od id (by simp [cacheHas_cacheSet, hmid])
          · rcases ih { s with
              messageContents := cacheSet s.messageContents m.id r.body } with h0 | h0
            · left
              simp [countDetailReq, logReq, hmid, h0]
            · right
              exact h0
        · have hmid : ¬m.id = id := by
            intro he
            rw [he] at hod
            rw [hod] at h
            simp [outcomeOk, hr] at h
          left
          simp [fetchMessageDetail, hr, countDetailReq, logReq, hmid]

/-- The loop `enrich` logs every request with the `refreshing` flag it was
started with. -/
lemma enrich_log_refreshing (s : MailState) (msgs : List Message)
    (od : String → FetchResult MsgDetail) (h : s.refreshing = true) :
    ∀ en ∈ (enrich s msgs od).log, en.refreshing = true := by
  induction msgs generalizing s with
  | nil => simp [enrich]
  | cons m rest ih =>
    by_cases hc : cacheHas s.messageContents m.id
    · simp only [enrich, hc, if_true]
      exact ih s h
    · simp only [enrich, hc, if_false, Bool.false_eq_true]
      cases hod : od m.id with
      | none =>
        simp [fetchMessageDetail, logReq, h]
      | some r =>
        by_cases hr : r.ok
        · simp only [fetchMessageDetail, hr, if_true]
          intro en hen
          simp only [List.mem_append] at hen
          rcases hen with hen | hen
          · simp only [List.mem_singleton] at hen
            simp [hen, logReq, h]
          · exact ih { s with
              messageContents := cacheSet s.messageContents m.id r.body } h en hen
        · simp [fetchMessageDetail, hr, logReq, h]

/-- The loop `enrich` succeeds exactly when `enrichOk` holds of its starting
cache. -/
lemma enrich_res_ok_iff (s : MailState) (msgs : List Message)
    (od : String → FetchResult MsgDetail) :
    (∃ u, (enrich s msgs od).res = .ok u) ↔
      enrichOk s.messageContents msgs od = true := by
  induction msgs generalizing s with
  | nil => simp [enrich, enrichOk]
  | cons m rest ih =>
    by_cases hc : cacheHas s.messageContents m.id
    · simp only [enrich, enrichOk, hc, if_true]
      exact ih s
    · simp only [enrich, enrichOk, hc, if_false, Bool.false_eq_true]
      cases hod : od m.id with
      | none => simp [fetchMessageDetail]
      | some r =>
        by_cases hr : r.ok
        · simp only [fetchMessageDetail, hr, if_true]
          simpa using ih { s with
            messageContents := cacheSet s.messageContents m.id r.body }
        · simp [fetchMessageDetail, hr]

lemma tokenReqIssued_append (l1 l2 : List ReqEntry) :
    tokenReqIssued (l1 ++ l2) = (tokenReqIssued l1 || tokenReqIssued l2) := by
  simp [tokenReqIssued, List.any_append]

/-- Characterization of `getToken`: success exactly when the response
is ok with a truthy token; the account field is never touched; exactly
one token request is logged, from the entry state. -/
lemma getToken_spec (s : MailState) (a p : String) (o : FetchResult TokenBody) :
    ((∃ t, (getToken s a p o).res = .ok t) ↔ tokenOutcomeOk o = true)
    ∧ (getToken s a p o).state.account = s.account
    ∧ (getToken s a p o).log = [logReq s (.tokenReq a p)] := by
  cases o with
  | none => simp [getToken, tokenOutcomeOk]
  | some r =>
    by_cases hr : r.ok
    · cases ht : r.body.token with
      | none => simp [getToken, hr, ht, tokenOutcomeOk, strFalsy]
      | some tk =>
        by_cases htk : tk = "" <;>
          simp [getToken, hr, ht, htk, tokenOutcomeOk, strFalsy]
    · simp [getToken, hr, tokenOutcomeOk]

/-- Characterization of `fetchDomains`: success exactly when the
response is ok; on failure the state is untouched; on success the
domain list is replaced wholesale; one request is logged. -/
lemma fetchDomains_spec (s : MailState) (o : FetchResult (List Domain)) :
    ((∃ ds, (fetchDomains s o).res = .ok ds) ↔ outcomeOk o = true)
    ∧ (outcomeOk o = false →
        (∃ err, (fetchDomains s o).res = .error err) ∧ (fetchDomains s o).state = s)
    ∧ (∀ r, o = some r → r.ok = true →
        (fetchDomains s o).state =
          { s with domains := r.body.map (fun dd => { domain := dd.domain, id := dd.id }) }
        ∧ (fetchDomains s o).res =
          .ok (r.body.map (fun dd => { domain := dd.domain, id := dd.id })))
    ∧ (fetchDomains s o).log = [logReq s .domainsReq]
    ∧ (fetchDomains s o).state.account = s.account
    ∧ (fetchDomains s o).state.loading = s.loading := by
  cases o with
  | none => simp [fetchDomains, outcomeOk]
  | some r =>
    by_cases hr : r.ok <;> simp [fetchDomains, outcomeOk, hr]

/-- Characterization of the `try` body of `createAccount`: success
exactly when both the creation response and the token exchange succeed;
the account is unchanged on error and committed from the creation
response on success; the log appends the creation request and, only
when creation succeeded, the token request; `loading` ends false. -/
lemma createAccountBody_spec (s : MailState) (u p d : String)
    (oa : FetchResult AccountBody) (ot : FetchResult TokenBody)
    (lpre : List ReqEntry) :
    ((∃ a, (createAccountBody s u p d oa ot lpre).res = .ok a) ↔
      (outcomeOk oa = true ∧ tokenOutcomeOk ot = true))
    ∧ (∀ err, (createAccountBody s u p d oa ot lpre).res = .error err →
        (createAccountBody s u p d oa ot lpre).state.account = s.account)
    ∧ (∀ a, (createAccountBody s u p d oa ot lpre).res = .ok a →
        (createAccountBody s u p d oa ot lpre).state.account =
          some { address := a.address, id := a.id })
    ∧ (createAccountBody s u p d oa ot lpre).log =
        lpre ++ [logReq { s with loading := true } (.accountsReq (u ++ "@" ++ d) p)]
          ++ (if outcomeOk oa = true then
            [logReq { s with loading := true } (.tokenReq (u ++ "@" ++ d) p)]
          else [])
    ∧ (createAccountBody s u p d oa ot lpre).state.loading = false := by
  cases oa with
  | none => simp [createAccountBody, outcomeOk]
  | some r =>
    by_cases hr : r.ok
    · have hgt := getToken_spec { s with loading := true } (u ++ "@" ++ d) p ot
      cases hres : (getToken { s with loading := true } (u ++ "@" ++ d) p ot).res with
      | error err =>
        have htok : tokenOutcomeOk ot = false := by
          rcases Bool.eq_false_or_eq_true (tokenOutcomeOk ot) with h | h
          · rcases hgt.1.mpr h with ⟨t, ht⟩
            rw [hres] at ht
            cases ht
          · exact h
        simp only [createAccountBody, hr, if_true, hres]
        refine ⟨?_, ?_, ?_, ?_, ?_⟩
        · simp [outcomeOk, hr, htok]
        · intro e _
          simpa using hgt.2.1
        · intro a ha
          cases ha
        · simp [outcomeOk, hr, hgt.2.2]
        · simp
      | ok t =>
        have htok : tokenOutcomeOk ot = true := hgt.1.mp ⟨t, hres⟩
        simp only [createAccountBody, hr, if_true, hres]
        refine ⟨?_, ?_, ?_, ?_, ?_⟩
        · simp [outcomeOk, hr, htok]
        · intro e he
          cases he
        · intro a ha
          cases ha
          simp
        · simp [outcomeOk, hr, hgt.2.2]
        · simp
    · simp [createAccountBody, outcomeOk, hr]

/-- Action `createAccount` ends with `loading = false` whenever it began with
`loading = false` (the domain-prefetch failure path never touches the
flag; every other path clears it in the `finally`). -/
lemma createAccount_state_loading (s : MailState) (u p d : String)
    (od : FetchResult (List Domain)) (oa : FetchResult AccountBody)
    (ot : FetchResult TokenBody) (h : s.loading = false) :
    (createAccount s u p d od oa ot).state.loading = false := by
  by_cases hd : s.domains.isEmpty
  · have hfd := fetchDomains_spec s od
    cases hres : (fetchDomains s od).res with
    | error err =>
      simp only [createAccount, hd, if_true, hres]
      rw [hfd.2.2.2.2.2, h]
    | ok ds =>
      have hbody := createAccountBody_spec (fetchDomains s od).state u p d oa ot
        (fetchDomains s od).log
      simp only [createAccount, hd, if_true, hres]
      exact hbody.2.2.2.2
  · have hd' : s.domains.isEmpty = false := by
      simpa using hd
    have hEq : createAccount s u p d od oa ot = createAccountBody s u p d oa ot [] := by
      simp [createAccount, hd']
    rw [hEq]
    exact (createAccountBody_spec s u p d oa ot []).2.2.2.2

/-- Every request `createAccount` issues after the optional domain
prefetch is issued while `loading = true`. -/
lemma createAccount_log_loading (s : MailState) (u p d : String)
    (od : FetchResult (List Domain)) (oa : FetchResult AccountBody)
    (ot : FetchResult TokenBody) :
    ∀ en ∈ (createAccount s u p d od oa ot).log,
      en.req ≠ .domainsReq → en.loading = true := by
  by_cases hd : s.domains.isEmpty
  · have hfd := fetchDomains_spec s od
    cases hres : (fetchDomains s od).res with
    | error err =>
      simp only [createAccount, hd, if_true, hres]
      rw [hfd.2.2.2.1]
      intro en hen hreq
      simp only [List.mem_singleton] at hen
      subst hen
      simp [logReq] at hreq
    | ok ds =>
      have hbody := createAccountBody_spec (fetchDomains s od).state u p d oa ot
        (fetchDomains s od).log
      simp only [createAccount, hd, if_true, hres]
      rw [hbody.2.2.2.1, hfd.2.2.2.1]
      intro en hen hreq
      simp only [List.append_assoc, List.mem_append, List.mem_singleton] at hen
      rcases hen with hen | hen | hen
      · subst hen
        simp [logReq] at hreq
      · subst hen
        simp [logReq]
      · by_cases hoa : outcomeOk oa = true
        · simp only [hoa, if_true, List.mem_singleton] at hen
          subst hen
          simp [logReq]
        · simp only [hoa] at hen
          simp at hen
  · have hd' : s.domains.isEmpty = false := by
      simpa using hd
    have hEq : createAccount s u p d od oa ot = createAccountBody s u p d oa ot [] := by
      simp [createAccount, hd']
    have hbody := createAccountBody_spec s u p d oa ot []
    rw [hEq, hbody.2.2.2.1]
    intro en hen hreq
    simp only [List.nil_append, List.mem_append, List.mem_singleton] at hen
    rcases hen with hen | hen
    · subst hen
      simp [logReq]
    · by_cases hoa : outcomeOk oa = true
      · simp only [hoa, if_true, List.mem_singleton] at hen
        subst hen
        simp [logReq]
      · simp only [hoa] at hen
        simp at hen

/-- Action `fetchMessages` clears `refreshing` on every exit path. -/
lemma fetchMessages_state_refreshing (s : MailState) (page : Nat)
    (osum : FetchResult MessagesBody) (odet : String → FetchResult MsgDetail) :
    (fetchMessages s page osum odet).state.refreshing = false := by
  cases osum with
  | none => simp [fetchMessages]
  | some r =>
    by_cases hr : r.ok
    · simp [fetchMessages, hr]
    · have hr' : r.ok = false := by
        simpa using hr
      simp [fetchMessages, hr']

/-- Every request `fetchMessages` issues is issued while
`refreshing = true`. -/
lemma fetchMessages_log_refreshing (s : MailState) (page : Nat)
    (osum : FetchResult MessagesBody) (odet : String → FetchResult MsgDetail) :
    ∀ en ∈ (fetchMessages s page osum odet).log, en.refreshing = true := by
  cases osum with
  | none => simp [fetchMessages, logReq]
  | some r =>
    by_cases hr : r.ok
    · simp only [fetchMessages, hr, if_true]
      intro en hen
      simp only [List.mem_cons] at hen
      rcases hen with hen | hen
      · subst hen
        simp [logReq]
      · exact enrich_log_refreshing _ _ _ rfl en hen
    · have hr' : r.ok = false := by
        simpa using hr
      simp [fetchMessages, hr', logReq]

/-- C1: for every `createAccount(username, password, domain)` call, the
account field becomes non-null exactly when the creation request and
the subsequent token exchange both succeed (after a successful domain
prefetch when one was needed); on any error the account keeps its prior
value; on success it is committed from the creation response; and the
token request is issued exactly when the creation request succeeded,
after it. -/
theorem createAccount_commit_iff (s : MailState) (u p d : String)
    (od : FetchResult (List Domain)) (oa : FetchResult AccountBody)
    (ot : FetchResult TokenBody) :
    ((∃ a, (createAccount s u p d od oa ot).res = .ok a) ↔
      (prefetchOk s od = true ∧ outcomeOk oa = true ∧ tokenOutcomeOk ot = true))
    ∧ (∀ err, (createAccount s u p d od oa ot).res = .error err →
        (createAccount s u p d od oa ot).state.account = s.account)
    ∧ (∀ a, (createAccount s u p d od oa ot).res = .ok a →
        (createAccount s u p d od oa ot).state.account =
          some { address := a.address, id := a.id })
    ∧ (tokenReqIssued (createAccount s u p d od oa ot).log =
        (prefetchOk s od && outcomeOk oa)) := by
  by_cases hd : s.domains.isEmpty
  · have hfd := fetchDomains_spec s od
    have hpre : prefetchOk s od = outcomeOk od := by
      simp [prefetchOk, hd]
    cases hres : (fetchDomains s od).res with
    | error err =>
      have hok : outcomeOk od = false := by
        rcases Bool.eq_false_or_eq_true (outcomeOk od) with h | h
        · rcases hfd.1.mpr h with ⟨ds, hds⟩
          rw [hres] at hds
          cases hds
        · exact h
      have hstate : (fetchDomains s od).state = s := (hfd.2.1 hok).2
      simp only [createAccount, hd, if_true, hres]
      refine ⟨?_, ?_, ?_, ?_⟩
      · simp [hpre, hok]
      · intro e _
        simp [hstate]
      · intro a ha
        cases ha
      · rw [hfd.2.2.2.1, hpre, hok]
        simp [tokenReqIssued, logReq]
    | ok ds =>
      have hok : outcomeOk od = true := hfd.1.mp ⟨ds, hres⟩
      have hbody := createAccountBody_spec (fetchDomains s od).state u p d oa ot
        (fetchDomains s od).log
      simp only [createAccount, hd, if_true, hres]
      refine ⟨?_, ?_, ?_, ?_⟩
      · rw [hbody.1, hpre, hok]
        simp
      · intro e he
        rw [hbody.2.1 e he, hfd.2.2.2.2.1]
      · intro a ha
        exact hbody.2.2.1 a ha
      · rw [hbody.2.2.2.1, hpre, hok, hfd.2.2.2.1]
        rw [tokenReqIssued_append, tokenReqIssued_append]
        by_cases hoa : outcomeOk oa = true <;>
          simp [hoa, tokenReqIssued, logReq]
  · have hbody := createAccountBody_spec s u p d oa ot []
    have hd' : s.domains.isEmpty = false := by
      simpa using hd
    have hpre : prefetchOk s od = true := by
      simp [prefetchOk, hd']
    have hEq : createAccount s u p d od oa ot = createAccountBody s u p d oa ot [] := by
      simp [createAccount, hd']
    rw [hEq]
    refine ⟨?_, ?_, ?_, ?_⟩
    · rw [hbody.1, hpre]
      simp
    · exact hbody.2.1
    · exact hbody.2.2.1
    · rw [hbody.2.2.2.1, hpre]
      rw [tokenReqIssued_append]
      by_cases hoa : outcomeOk oa = true <;>
        simp [hoa, tokenReqIssued, logReq]

/-- Witness for C1: a concrete `createAccount` call whose token response
carries no token field leaves the account absent. -/
theorem createAccount_commit_iff_witness :
    (createAccount { initialState with domains := [{ domain := "ex.com", id := "d1" }] }
      "u" "pw" "ex.com" none (some { status := 200, body := { address := "u@ex.com", id := "a1" } })
      (some { status := 200, body := { token := none } })).state.account = none := by
  have h := createAccount_commit_iff
    { initialState with domains := [{ domain := "ex.com", id := "d1" }] }
    "u" "pw" "ex.com" none (some { status := 200, body := { address := "u@ex.com", id := "a1" } })
    (some { status := 200, body := { token := none } })
  exact h.2.1 .tokenMissing rfl

/-- C4 counterexample: `clearAccountData` leaves a non-empty detail
cache in place, contrary to the claim that it empties it. -/
theorem clearAccountData_keeps_cache :
    (clearAccountData { initialState with messageContents := [("m1", "d1")] }).messageContents
      = [("m1", "d1")]
    ∧ ([("m1", "d1")] : List (String × MsgDetail)) ≠ [] := by
  exact ⟨rfl, by simp⟩

/-- C4 amended: `clearAccountData` resets the account, token and message
list and removes the persisted snapshot, but leaves the detail cache
(and the other fields) unchanged. -/
theorem clearAccountData_fields (s : MailState) :
    (clearAccountData s).account = none
    ∧ (clearAccountData s).token = none
    ∧ (clearAccountData s).messages = []
    ∧ (clearAccountData s).storage = none
    ∧ (clearAccountData s).messageContents = s.messageContents
    ∧ (clearAccountData s).domains = s.domains
    ∧ (clearAccountData s).pagination = s.pagination
    ∧ (clearAccountData s).isTokenValid = s.isTokenValid := by
  simp [clearAccountData]

/-- C5 counterexample: with no account held, `deleteAccount` completes
with the bare-`return` value (`none`, i.e. `undefined`), not `false`. -/
theorem deleteAccount_absent_returns_no_value :
    (deleteAccount initialState (some { status := 204, body := () })).res = .ok none
    ∧ (deleteAccount initialState (some { status := 204, body := () })).res
        ≠ .ok (some false) := by
  refine ⟨rfl, ?_⟩
  intro h
  rw [show (deleteAccount initialState (some { status := 204, body := () })).res
    = Except.ok (none : Option Bool) from rfl] at h
  exact Option.noConfusion (Except.ok.inj h)

/-- C5 amended: `deleteAccount` is a no-op returning `undefined` when
the account or token is falsy; otherwise it returns `true` and clears
account/token/messages/snapshot exactly on status 204, returns `false`
leaving the state untouched on any other status, and propagates a
transport failure as an error. -/
theorem deleteAccount_spec (s : MailState) (o : FetchResult Unit) :
    ((s.account = none ∨ strFalsy s.token = true) →
      deleteAccount s o = { res := .ok none, state := s, log := [] })
    ∧ (∀ acc, s.account = some acc → strFalsy s.token = false →
        ((o = none → (deleteAccount s o).res = .error .transport
          ∧ (deleteAccount s o).state = s)
        ∧ (∀ r, o = some r →
            (r.status = 204 → (deleteAccount s o).res = .ok (some true)
              ∧ (deleteAccount s o).state = clearAccountData s)
            ∧ (r.status ≠ 204 → (deleteAccount s o).res = .ok (some false)
              ∧ (deleteAccount s o).state = s)))) := by
  constructor
  · intro h
    rcases h with h | h
    · simp [deleteAccount, h]
    · cases hacc : s.account with
      | none => simp [deleteAccount, hacc]
      | some acc => simp [deleteAccount, hacc, h]
  · intro acc hacc htok
    refine ⟨?_, ?_⟩
    · intro ho
      subst ho
      simp [deleteAccount, hacc, htok]
    · intro r ho
      subst ho
      constructor
      · intro h204
        simp [deleteAccount, hacc, htok, h204]
      · intro h204
        simp [deleteAccount, hacc, htok, h204]

/-- Witness for C5 amended: deleting from the initial state (no
account) is the literal no-op result. -/
theorem deleteAccount_spec_witness :
    deleteAccount initialState (some { status := 204, body := () })
      = { res := .ok none, state := initialState, log := [] } := by
  exact (deleteAccount_spec initialState (some { status := 204, body := () })).1
    (Or.inl rfl)

/-- C6: `checkToken` never throws (its result type is a plain boolean
with the post-state); it returns `true` exactly when the guard passes
and the probe response is ok, and on any probe failure — transport or
non-ok status — it returns `false` and records `isTokenValid := false`. -/
theorem checkToken_reports_boolean (s : MailState) (o : FetchResult Unit) :
    ((checkToken s o).1 = true ↔
      (strFalsy s.token = false ∧ s.account ≠ none
        ∧ ∃ r, o = some r ∧ r.ok = true))
    ∧ ((strFalsy s.token = false ∧ s.account ≠ none) →
        (o = none ∨ ∃ r, o = some r ∧ r.ok = false) →
        (checkToken s o).1 = false ∧ (checkToken s o).2.1.isTokenValid = false) := by
  by_cases hg : strFalsy s.token ∨ s.account = none
  · constructor
    · simp only [checkToken, hg, if_true]
      constructor
      · intro h
        cases h
      · rintro ⟨h1, h2, _⟩
        rcases hg with hg | hg
        · rw [h1] at hg
          cases hg
        · exact absurd hg h2
    · rintro ⟨h1, h2⟩ _
      rcases hg with hg | hg
      · rw [h1] at hg
        cases hg
      · exact absurd hg h2
  · push_neg at hg
    have h1 : strFalsy s.token = false := by
      simpa using hg.1
    have hguard : ¬(strFalsy s.token = true ∨ s.account = none) := by
      simp [h1, hg.2]
    constructor
    · cases o with
      | none => simp [checkToken, hguard, h1, hg.2]
      | some r =>
        by_cases hr : r.ok <;> simp [checkToken, hguard, h1, hg.2, hr]
    · intro _ hfail
      rcases hfail with hfail | ⟨r, hro, hr⟩
      · subst hfail
        simp [checkToken, hguard]
      · subst hro
        simp [checkToken, hguard, hr]

/-- Witness for C6: a concrete non-ok probe yields `false` and marks
the token invalid. -/
theorem checkToken_reports_boolean_witness :
    (checkToken { initialState with
          token := some "tk",
          account := some { address := "a@b", id := "i1" },
          isTokenValid := true }
      (some { status := 401, body := () })).1 = false
    ∧ (checkToken { initialState with
          token := some "tk",
          account := some { address := "a@b", id := "i1" },
          isTokenValid := true }
      (some { status := 401, body := () })).2.1.isTokenValid = false := by
  exact (checkToken_reports_boolean { initialState with
        token := some "tk",
        account := some { address := "a@b", id := "i1" },
        isTokenValid := true }
      (some { status := 401, body := () })).2
    ⟨rfl, by simp⟩ (Or.inr ⟨{ status := 401, body := () }, rfl, rfl⟩)

/-- C7: a failed `fetchDomains` propagates an error and leaves the
whole state (in particular the cached domain list) untouched; a
successful one replaces the domain list wholesale with the mapped
server list and returns it. -/
theorem fetchDomains_replace_or_keep (s : MailState) (o : FetchResult (List Domain)) :
    (outcomeOk o = false →
      (∃ err, (fetchDomains s o).res = .error err) ∧ (fetchDomains s o).state = s)
    ∧ (∀ r, o = some r → r.ok = true →
        (fetchDomains s o).state.domains =
          r.body.map (fun dd => { domain := dd.domain, id := dd.id })
        ∧ (fetchDomains s o).res =
          .ok (r.body.map (fun dd => { domain := dd.domain, id := dd.id }))) := by
  have h := fetchDomains_spec s o
  refine ⟨h.2.1, ?_⟩
  intro r hro hr
  rcases h.2.2.1 r hro hr with ⟨hst, hres⟩
  rw [hst]
  exact ⟨rfl, hres⟩

/-- Witness for C7: a concrete transport failure leaves the cached
domain list of a populated state unchanged. -/
theorem fetchDomains_replace_or_keep_witness :
    (fetchDomains { initialState with domains := [{ domain := "ex.com", id := "d1" }] }
      none).state = { initialState with domains := [{ domain := "ex.com", id := "d1" }] } := by
  exact ((fetchDomains_replace_or_keep
    { initialState with domains := [{ domain := "ex.com", id := "d1" }] } none).1 rfl).2

/-- C10: with a `null` token or `null` account, `checkToken` returns
`false` at once, issues no request, and leaves the state — including
`isTokenValid` — exactly as it was. -/
theorem checkToken_guard_noop (s : MailState) (o : FetchResult Unit)
    (h : s.token = none ∨ s.account = none) :
    checkToken s o = (false, s, []) := by
  have hg : strFalsy s.token = true ∨ s.account = none := by
    rcases h with h | h
    · left
      simp [strFalsy, h]
    · right
      exact h
  simp [checkToken, hg]

/-- Witness for C10: probing from a state with a token but no account
returns `false` with the state and log untouched. -/
theorem checkToken_guard_noop_witness :
    checkToken { initialState with token := some "tk", isTokenValid := true }
      (some { status := 200, body := () })
      = (false, { initialState with token := some "tk", isTokenValid := true }, []) := by
  exact checkToken_guard_noop { initialState with token := some "tk", isTokenValid := true }
    (some { status := 200, body := () }) (Or.inr rfl)

/-- C2 counterexample: a `fetchMessages(2)` call that fails (its one
detail fetch hits a transport error) nevertheless leaves the pagination
cursor moved to the requested page and server total. -/
theorem fetchMessages_failure_moves_cursor :
    (fetchMessages initialState 2
      (some { status := 200, body := { member := [sampleMsg], totalItems := some 5 } })
      (fun _ => none)).res = .error .transport
    ∧ (fetchMessages initialState 2
      (some { status := 200, body := { member := [sampleMsg], totalItems := some 5 } })
      (fun _ => none)).state.pagination ≠ initialState.pagination := by
  refine ⟨rfl, ?_⟩
  decide

/-- C2 amended: a successful summary response moves the cursor to the
requested page and the server-reported total (with `|| 0` defaulting)
even if a later detail fetch makes the call fail; only a failure of the
summary request itself leaves the cursor (and message list) unchanged. -/
theorem fetchMessages_cursor (s : MailState) (page : Nat)
    (osum : FetchResult MessagesBody) (odet : String → FetchResult MsgDetail) :
    (outcomeOk osum = false →
      (∃ err, (fetchMessages s page osum odet).res = .error err)
      ∧ (fetchMessages s page osum odet).state.pagination = s.pagination
      ∧ (fetchMessages s page osum odet).state.messages = s.messages)
    ∧ (∀ r, osum = some r → r.ok = true →
        (fetchMessages s page osum odet).state.pagination =
          { page := page, pageSize := s.pagination.pageSize,
            total := r.body.totalItems.getD 0 }) := by
  constructor
  · intro hok
    cases osum with
    | none => simp [fetchMessages]
    | some r =>
      have hr : r.ok = false := by
        simpa [outcomeOk] using hok
      simp [fetchMessages, hr]
  · intro r hro hok
    subst hro
    simp only [fetchMessages, hok, if_true]
    rw [enrich_state_eq]

/-- Witness for C2 amended: a concrete failing summary request leaves
the initial cursor in place. -/
theorem fetchMessages_cursor_witness :
    (fetchMessages initialState 3 none (fun _ => none)).state.pagination
      = initialState.pagination := by
  exact ((fetchMessages_cursor initialState 3 none (fun _ => none)).1 rfl).2.1

/-- C3 counterexample: the summary request succeeds, yet `fetchMessages`
signals an error because one message's detail fetch returned a non-ok
status — per-detail failures do propagate. -/
theorem fetchMessages_detail_failure_propagates :
    outcomeOk (some {
          status := 200,
          body := { member := [sampleMsg], totalItems := some 1 } } :
      FetchResult MessagesBody) = true
    ∧ (fetchMessages initialState 1
        (some { status := 200, body := { member := [sampleMsg], totalItems := some 1 } })
        (fun _ => some { status := 500, body := "x" })).res
      = .error .messageDetailFetchFailed := by
  exact ⟨rfl, rfl⟩

/-- C3 amended: `fetchMessages` succeeds exactly when the summary
request succeeds and every listed message's detail that is not already
cached is fetched successfully; an individual detail failure aborts the
call and its error propagates to the caller. -/
theorem fetchMessages_success_iff (s : MailState) (page : Nat)
    (osum : FetchResult MessagesBody) (odet : String → FetchResult MsgDetail) :
    (∃ u, (fetchMessages s page osum odet).res = .ok u) ↔
      (outcomeOk osum = true ∧
        ∀ r, osum = some r →
          enrichOk s.messageContents r.body.member odet = true) := by
  cases osum with
  | none => simp [fetchMessages, outcomeOk]
  | some r =>
    by_cases hr : r.ok
    · simp only [fetchMessages, hr, if_true, outcomeOk, true_and,
        Option.some.injEq]
      have hiff := enrich_res_ok_iff { s with
          refreshing := true,
          messages := r.body.member,
          pagination := {
            page := page,
            pageSize := s.pagination.pageSize,
            total := r.body.totalItems.getD 0 } }
        r.body.member odet
      constructor
      · intro h hx hrx
        cases hrx
        exact hiff.mp h
      · intro h
        exact hiff.mpr (h r rfl)
    · have hr' : r.ok = false := by
        simpa using hr
      simp [fetchMessages, hr', outcomeOk]

/-- Witness for C3 amended: with the lone listed message already
cached, a concrete `fetchMessages` run succeeds without consulting the
(failing) detail oracle. -/
theorem fetchMessages_success_iff_witness :
    ∃ u, (fetchMessages { initialState with messageContents := [("m1", "d0")] } 1
      (some { status := 200, body := { member := [sampleMsg], totalItems := some 1 } })
      (fun _ => none)).res = .ok u := by
  exact (fetchMessages_success_iff
    { initialState with messageContents := [("m1", "d0")] } 1
    (some { status := 200, body := { member := [sampleMsg], totalItems := some 1 } })
    (fun _ => none)).mpr ⟨rfl, fun r hr => by cases hr; rfl⟩

/-- C8: enrichment is idempotent per message id: an id already cached
is never fetched again, and — provided the first run's oracle answer
for that id is a success — two consecutive enrichment runs perform at
most one detail fetch for it in total. -/
theorem enrich_idempotent (s : MailState) (l1 l2 : List Message)
    (od1 od2 : String → FetchResult MsgDetail) (id : String) :
    (cacheHas s.messageContents id = true →
      countDetailReq (enrich s l1 od1).log id = 0)
    ∧ (outcomeOk (od1 id) = true →
        countDetailReq (enrich s l1 od1).log id
          + countDetailReq (enrich (enrich s l1 od1).state l2 od2).log id ≤ 1) := by
  constructor
  · intro h
    exact enrich_cached_no_fetch s l1 od1 id h
  · intro h
    rcases enrich_fetch_or_cached s l1 od1 id h with h0 | h0
    · have h2 := enrich_count_le_one (enrich s l1 od1).state l2 od2 id
      omega
    · have h1 := enrich_count_le_one s l1 od1 id
      have h2 := enrich_cached_no_fetch (enrich s l1 od1).state l2 od2 id h0
      omega

/-- Witness for C8: a concrete run over a cached id issues no detail
request. -/
theorem enrich_idempotent_witness :
    countDetailReq (enrich { initialState with messageContents := [("m1", "d0")] }
      [sampleMsg] (fun _ => some { status := 200, body := "d" })).log "m1" = 0 := by
  exact (enrich_idempotent { initialState with messageContents := [("m1", "d0")] }
    [sampleMsg] [] (fun _ => some { status := 200, body := "d" })
    (fun _ => none) "m1").1 rfl

/-- C9 counterexample: a successful `createAccount` run that needed the
domain prefetch issues its first request while `loading` is still
`false`, so the flag is not held for the whole call's duration. -/
theorem createAccount_loading_not_held_throughout :
    ((createAccount initialState "u" "pw" "ex.com"
      (some { status := 200, body := [{ domain := "ex.com", id := "d1" }] })
      (some { status := 200, body := { address := "u@ex.com", id := "a1" } })
      (some { status := 200, body := { token := some "tok" } })).log.map
        (fun en => en.loading)) = [false, true, true]
    ∧ (∃ a, (createAccount initialState "u" "pw" "ex.com"
      (some { status := 200, body := [{ domain := "ex.com", id := "d1" }] })
      (some { status := 200, body := { address := "u@ex.com", id := "a1" } })
      (some { status := 200, body := { token := some "tok" } })).res = .ok a) := by
  exact ⟨rfl, ⟨{ address := "u@ex.com", id := "a1" }, rfl⟩⟩

/-- C9 amended: the busy flags are cleared on every exit path —
`loading` is `false` after any `createAccount` call entered with it
`false`, and `refreshing` is `false` after any `fetchMessages` call;
moreover every request issued after the optional domain prefetch and
every `fetchMessages` request is issued with its busy flag held, while
the prefetch request itself runs before `loading` is raised. -/
theorem busy_flags_cleared (s : MailState) (u p d : String)
    (od : FetchResult (List Domain)) (oa : FetchResult AccountBody)
    (ot : FetchResult TokenBody) (page : Nat)
    (osum : FetchResult MessagesBody) (odet : String → FetchResult MsgDetail) :
    (s.loading = false → (createAccount s u p d od oa ot).state.loading = false)
    ∧ (∀ en ∈ (createAccount s u p d od oa ot).log,
        en.req ≠ .domainsReq → en.loading = true)
    ∧ (fetchMessages s page osum odet).state.refreshing = false
    ∧ (∀ en ∈ (fetchMessages s page osum odet).log, en.refreshing = true) := by
  refine ⟨?_, ?_, ?_, ?_⟩
  · exact createAccount_state_loading s u p d od oa ot
  · exact createAccount_log_loading s u p d od oa ot
  · exact fetchMessages_state_refreshing s page osum odet
  · exact fetchMessages_log_refreshing s page osum odet

/-- Witness for C9 amended: a concrete failing `createAccount` call and
a concrete failing `fetchMessages` call both end with their busy flags
cleared. -/
theorem busy_flags_cleared_witness :
    (createAccount initialState "u" "pw" "ex.com" none none none).state.loading = false
    ∧ (fetchMessages initialState 1 none (fun _ => none)).state.refreshing = false := by
  have h := busy_flags_cleared initialState "u" "pw" "ex.com" none none none 1 none
    (fun _ => none)
  exact ⟨h.1 rfl, h.2.2.1⟩

end Mail
